import Mathlib

/-!
Verification of the user-attribute synchronization core of the
mattermost-plugin-user-attribute-sync-starter-template repository.

The Go source is shallowly embedded: `map[string]T` values become
association lists (`List (String × T)`) with Go-map update semantics,
`interface{}` attribute values become the inductive `GoValue`, fallible
operations return `Except`, and the remote Mattermost API and the
persistent KV store are modelled as explicit state plus oracle functions
bundled in `Env`.  `model.NewId()` is modelled by an ID-generator
function `gen : Nat → String` applied to a running counter.
-/

namespace AttrSync

/-- Association-list lookup with Go-map semantics (first binding wins;
lists built by `setKV` below have unique keys). -/
def alookup (k : String) : List (String × α) → Option α
  | [] => none
  | (k', v) :: rest => if k' = k then some v else alookup k rest

/-- Association-list update with Go-map semantics: replace the binding of
`k` if present, otherwise append it. -/
def setKV (k : String) (v : α) : List (String × α) → List (String × α)
  | [] => [(k, v)]
  | (k', v') :: rest => if k' = k then (k, v) :: rest else (k', v') :: setKV k v rest

theorem alookup_setKV_self (k : String) (v : α) (l : List (String × α)) :
    alookup k (setKV k v l) = some v := by
  induction l with
  | nil => simp [setKV, alookup]
  | cons p rest ih =>
    by_cases h : p.1 = k
    · simp [setKV, h, alookup]
    · simp [setKV, h, alookup, ih]

theorem alookup_setKV_ne (k k' : String) (v : α) (l : List (String × α))
    (h : k' ≠ k) : alookup k' (setKV k v l) = alookup k' l := by
  induction l with
  | nil =>
    simp only [setKV, alookup, if_neg (fun hh : k = k' => h hh.symm)]
  | cons p rest ih =>
    by_cases hp : p.1 = k
    · simp only [setKV, hp, if_pos rfl, alookup, if_neg (fun hh : k = k' => h hh.symm)]
    · simp only [setKV, hp, if_false, alookup]
      by_cases hk : p.1 = k'
      · simp [hk]
      · simp [hk, ih]

/-- The runtime shape of one element of a Go `[]interface{}` value, as far
as the sync code inspects it: the code only ever type-asserts elements to
`string`, so an element is either a string or something else. -/
inductive GoElem where
  | str (s : String)
  | other
  deriving DecidableEq, Repr

/-- The runtime shape of a Go `interface{}` attribute value as inspected by
`inferFieldType`, `discoverFields`, `extractMultiselectOptions` and
`buildPropertyValues`: a string, a `[]interface{}` slice, a `[]string`
slice, the nil interface value, or any other type (number, bool, map, …). -/
inductive GoValue where
  | str (s : String)
  | arr (items : List GoElem)
  | strArr (items : List String)
  | null
  | other
  deriving DecidableEq, Repr

/-- Mattermost property field types used by the plugin
(`model.PropertyFieldTypeText` / `Date` / `Multiselect`). -/
inductive FieldType where
  | text
  | date
  | multiselect
  deriving DecidableEq, Repr

/-- Decides whether a character is an ASCII digit, byte range 48–57
(the `\d` class of Go's `regexp` on the pattern's ASCII input). -/
def isDig (c : Char) : Bool := decide (48 ≤ c.toNat ∧ c.toNat ≤ 57)

/-- Embedding of `datePatternRegex.MatchString` from `server/sync/types.go`:
the anchored regex `^\d{4}-(0[1-9]|1[0-2])-(0[1-9]|[12][0-9]|3[01])$`
written out character class by character class. -/
def dateMatch (s : String) : Bool :=
  let cs := s.data
  let at_ := fun i => (cs.getD i ' ')
  decide (cs.length = 10) &&
  isDig (at_ 0) && isDig (at_ 1) && isDig (at_ 2) && isDig (at_ 3) &&
  decide (at_ 4 = '-') &&
  ((decide ((at_ 5).toNat = 48) && decide (49 ≤ (at_ 6).toNat ∧ (at_ 6).toNat ≤ 57)) ||
   (decide ((at_ 5).toNat = 49) && decide (48 ≤ (at_ 6).toNat ∧ (at_ 6).toNat ≤ 50))) &&
  decide (at_ 7 = '-') &&
  ((decide ((at_ 8).toNat = 48) && decide (49 ≤ (at_ 9).toNat ∧ (at_ 9).toNat ≤ 57)) ||
   ((decide ((at_ 8).toNat = 49) || decide ((at_ 8).toNat = 50)) && isDig (at_ 9)) ||
   (decide ((at_ 8).toNat = 51) && (decide ((at_ 9).toNat = 48) || decide ((at_ 9).toNat = 49))))

/-- Embedding of `inferFieldType` from `server/sync/types.go`: nil → text;
`[]interface{}` and `[]string` → multiselect; a string matching the date
regex → date; any other string and any other value → text. -/
def inferFieldType : GoValue → FieldType
  | .null => .text
  | .arr _ => .multiselect
  | .strArr _ => .multiselect
  | .str s => if dateMatch s then .date else .text
  | .other => .text

/-- Semantic reading of the date regex, stated from the specification's
wording: ten characters `YYYY-MM-DD`, all of `Y M D` ASCII digits, with the
month value in 1–12 and the day value in 1–31. -/
def SpecDate (s : String) : Prop :=
  let cs := s.data
  let dv := fun i => (cs.getD i ' ').toNat - 48
  cs.length = 10 ∧
  (∀ i ∈ ([0, 1, 2, 3, 5, 6, 8, 9] : List Nat), isDig (cs.getD i ' ') = true) ∧
  cs.getD 4 ' ' = '-' ∧ cs.getD 7 ' ' = '-' ∧
  1 ≤ 10 * dv 5 + dv 6 ∧ 10 * dv 5 + dv 6 ≤ 12 ∧
  1 ≤ 10 * dv 8 + dv 9 ∧ 10 * dv 8 + dv 9 ≤ 31

instance (s : String) : Decidable (SpecDate s) := by
  unfold SpecDate
  exact inferInstance

/-- The field type a sample value is assigned according to the claim's own
rules: an ordered list yields multiselect, a string matching the date
pattern yields date, every other string and every other value (including a
null sample) yields text. -/
def claimedFieldType : GoValue → FieldType
  | .arr _ => .multiselect
  | .strArr _ => .multiselect
  | .str s => if SpecDate s then .date else .text
  | .null => .text
  | .other => .text

theorem dateMatch_iff_specDate (s : String) : dateMatch s = true ↔ SpecDate s := by
  unfold dateMatch SpecDate isDig
  simp only [Bool.and_eq_true, Bool.or_eq_true, decide_eq_true_eq,
    List.mem_cons, List.not_mem_nil, or_false, forall_eq_or_imp, forall_eq]
  constructor
  · rintro ⟨⟨⟨⟨⟨⟨⟨⟨hlen, h0⟩, h1⟩, h2⟩, h3⟩, h4⟩, hm⟩, h7⟩, hd⟩
    refine ⟨hlen, ⟨h0, h1, h2, h3, ?_, ?_, ?_, ?_⟩, h4, h7, ?_, ?_, ?_, ?_⟩ <;> omega
  · rintro ⟨hlen, ⟨h0, h1, h2, h3, h5, h6, h8, h9⟩, h4, h7, hm1, hm2, hd1, hd2⟩
    refine ⟨⟨⟨⟨⟨⟨⟨⟨hlen, h0⟩, h1⟩, h2⟩, h3⟩, h4⟩, ?_⟩, h7⟩, ?_⟩ <;> omega

/-- C4: for every sample value, `inferFieldType` returns Multiselect when the
value is an ordered list, Date when the value is a string matching the
anchored regex `^\d{4}-(0[1-9]|1[0-2])-(0[1-9]|[12]\d|3[01])$`, Text for
every other string and every other value, and Text for a null sample. -/
theorem inferFieldType_matches_claim (v : GoValue) :
    inferFieldType v = claimedFieldType v := by
  cases v with
  | str s =>
    simp only [inferFieldType, claimedFieldType]
    by_cases h : SpecDate s
    · rw [if_pos ((dateMatch_iff_specDate s).mpr h), if_pos h]
    · rw [if_neg (fun hb => h ((dateMatch_iff_specDate s).mp hb)), if_neg h]
  | arr items => rfl
  | strArr items => rfl
  | null => rfl
  | other => rfl

/-- One entry of the `existingOptions` argument of `mergeOptions`
(a Go `map[string]interface{}`): `name` is `some n` exactly when the map
holds a string under the key "name", and likewise `id`; a `none` component
marks a malformed entry (missing key or non-string value). -/
structure OptEntry where
  name : Option String
  id : Option String
  deriving DecidableEq, Repr

/-- A well-formed option as produced by `mergeOptions`: a Go
`map[string]interface{}{"id": id, "name": name}`. -/
structure PropOption where
  id : String
  name : String
  deriving DecidableEq, Repr

/-- First phase of `mergeOptions` (src/unnamed/part_009): walk
`existingOptions`, and for each entry whose "name" and "id" both
type-assert to strings, record the name in the lookup map and append a
rebuilt `{id, name}` option to the merged list; other entries are skipped. -/
def buildExisting (acc : List (String × String) × List PropOption) :
    List OptEntry → List (String × String) × List PropOption
  | [] => acc
  | e :: rest =>
    match e.name, e.id with
    | some n, some i => buildExisting (setKV n i acc.1, acc.2 ++ [⟨i, n⟩]) rest
    | _, _ => buildExisting acc rest

/-- Second phase of `mergeOptions`: walk `newValues`, skipping names already
in the lookup map and otherwise minting a fresh ID (`gen` applied to the
running count, modelling `model.NewId()`), appending the new option and
recording it in the map so duplicates within `newValues` are not re-added. -/
def addNewValues (gen : Nat → String) (emap : List (String × String))
    (merged : List PropOption) (cnt : Nat) : List String → List PropOption × Nat
  | [] => (merged, cnt)
  | v :: vs =>
    match alookup v emap with
    | some _ => addNewValues gen emap merged cnt vs
    | none =>
      addNewValues gen (setKV v (gen cnt) emap)
        (merged ++ [PropOption.mk (gen cnt) v]) (cnt + 1) vs

/-- Embedding of `mergeOptions` from src/unnamed/part_009: merge existing
multiselect options with newly observed values, appending only names not
already known and returning the merged list with the count of additions. -/
def mergeOptions (gen : Nat → String) (existingOptions : List OptEntry)
    (newValues : List String) : List PropOption × Nat :=
  let be := buildExisting ([], []) existingOptions
  addNewValues gen be.1 be.2 0 newValues

/-- The well-formed options contained in an `existingOptions` list, each
rebuilt as an `{id, name}` option, in their original order. -/
def wfOptions (l : List OptEntry) : List PropOption :=
  l.filterMap fun e =>
    match e.name, e.id with
    | some n, some i => some ⟨i, n⟩
    | _, _ => none

/-- The names of the well-formed entries of an `existingOptions` list:
exactly the names that participate in `mergeOptions` deduplication. -/
def wfNames (l : List OptEntry) : List String :=
  l.filterMap fun e =>
    match e.name, e.id with
    | some n, some _ => some n
    | _, _ => none

/-- Reading a merged option list back as `existingOptions` entries, as
`updateMultiselectOptions` does when the merged list comes back from the
remote field definition: every entry is a `{id, name}` map of strings. -/
def toOptEntryList (l : List PropOption) : List OptEntry :=
  l.map fun o => ⟨some o.name, some o.id⟩

theorem buildExisting_merged (l : List OptEntry)
    (m : List (String × String)) (mg : List PropOption) :
    (buildExisting (m, mg) l).2 = mg ++ wfOptions l := by
  induction l generalizing m mg with
  | nil => simp [buildExisting, wfOptions]
  | cons e rest ih =>
    match hn : e.name, hi : e.id with
    | some n, some i =>
      simp [buildExisting, hn, hi, wfOptions, ih, List.filterMap_cons]
    | some n, none =>
      simp [buildExisting, hn, hi, wfOptions, ih, List.filterMap_cons]
    | none, some i =>
      simp [buildExisting, hn, hi, wfOptions, ih, List.filterMap_cons]
    | none, none =>
      simp [buildExisting, hn, hi, wfOptions, ih, List.filterMap_cons]

theorem buildExisting_keys (l : List OptEntry)
    (m : List (String × String)) (mg : List PropOption) (n : String) :
    (alookup n (buildExisting (m, mg) l).1).isSome ↔
      (alookup n m).isSome ∨ n ∈ wfNames l := by
  induction l generalizing m mg with
  | nil => simp [buildExisting, wfNames]
  | cons e rest ih =>
    match hn : e.name, hi : e.id with
    | some n', some i =>
      rw [show buildExisting (m, mg) (e :: rest)
            = buildExisting (setKV n' i m, mg ++ [⟨i, n'⟩]) rest by
          simp [buildExisting, hn, hi]]
      rw [ih]
      by_cases h : n = n'
      · subst h
        simp [wfNames, List.filterMap_cons, hn, hi, alookup_setKV_self]
      · rw [alookup_setKV_ne n' n i m h]
        simp only [wfNames, List.filterMap_cons, hn, hi]
        simp [h]
    | some n', none =>
      rw [show buildExisting (m, mg) (e :: rest) = buildExisting (m, mg) rest by
          simp [buildExisting, hn, hi]]
      rw [ih]
      simp [wfNames, List.filterMap_cons, hn, hi]
    | none, some i =>
      rw [show buildExisting (m, mg) (e :: rest) = buildExisting (m, mg) rest by
          simp [buildExisting, hn, hi]]
      rw [ih]
      simp [wfNames, List.filterMap_cons, hn, hi]
    | none, none =>
      rw [show buildExisting (m, mg) (e :: rest) = buildExisting (m, mg) rest by
          simp [buildExisting, hn, hi]]
      rw [ih]
      simp [wfNames, List.filterMap_cons, hn, hi]

theorem addNewValues_spec (gen : Nat → String) (vs : List String) :
    ∀ (m : List (String × String)) (mg : List PropOption) (cnt : Nat),
    ∃ suf, (addNewValues gen m mg cnt vs).1 = mg ++ suf ∧
      (∀ o ∈ suf, alookup o.name m = none) ∧
      (addNewValues gen m mg cnt vs).2 = cnt + suf.length := by
  induction vs with
  | nil =>
    intro m mg cnt
    exact ⟨[], by simp [addNewValues], by simp, by simp [addNewValues]⟩
  | cons v vs ih =>
    intro m mg cnt
    match hv : alookup v m with
    | some x =>
      obtain ⟨suf, h1, h2, h3⟩ := ih m mg cnt
      exact ⟨suf, by simp [addNewValues, hv, h1], h2, by simp [addNewValues, hv, h3]⟩
    | none =>
      obtain ⟨suf, h1, h2, h3⟩ :=
        ih (setKV v (gen cnt) m) (mg ++ [PropOption.mk (gen cnt) v]) (cnt + 1)
      refine ⟨PropOption.mk (gen cnt) v :: suf, ?_, ?_, ?_⟩
      · simp only [addNewValues, hv, h1, List.append_assoc, List.singleton_append]
      · intro o ho
        rcases List.mem_cons.mp ho with h | h
        · subst h; exact hv
        · have hm' := h2 o h
          by_cases hname : o.name = v
          · rw [hname] at hm'
            rw [alookup_setKV_self] at hm'
            exact absurd hm' (by simp)
          · rw [alookup_setKV_ne v o.name (gen cnt) m hname] at hm'
            exact hm'
      · simp only [addNewValues, hv, h3, List.length_cons]
        omega

theorem addNewValues_all_known (gen : Nat → String) (vs : List String) :
    ∀ (m : List (String × String)) (mg : List PropOption) (cnt : Nat),
    (∀ v ∈ vs, (alookup v m).isSome) →
    addNewValues gen m mg cnt vs = (mg, cnt) := by
  induction vs with
  | nil => intro m mg cnt _; rfl
  | cons v vs ih =>
    intro m mg cnt h
    have hv := h v (List.mem_cons_self v vs)
    match hv' : alookup v m with
    | some x =>
      simp only [addNewValues, hv']
      exact ih m mg cnt fun u hu => h u (List.mem_cons_of_mem v hu)
    | none => rw [hv'] at hv; simp at hv

theorem addNewValues_mem_names (gen : Nat → String) (vs : List String) :
    ∀ (m : List (String × String)) (mg : List PropOption) (cnt : Nat),
    (∀ n, (alookup n m).isSome → n ∈ mg.map PropOption.name) →
    ∀ v ∈ vs, v ∈ (addNewValues gen m mg cnt vs).1.map PropOption.name := by
  induction vs with
  | nil => intro m mg cnt _ v hv; simp at hv
  | cons v0 vs ih =>
    intro m mg cnt hinv v hv
    match hv0 : alookup v0 m with
    | some x =>
      simp only [addNewValues, hv0]
      rcases List.mem_cons.mp hv with h | h
      · subst h
        have : v ∈ mg.map PropOption.name := hinv v (by simp [hv0])
        obtain ⟨suf, h1, -, -⟩ := addNewValues_spec gen vs m mg cnt
        rw [h1, List.map_append]
        exact List.mem_append_left _ this
      · exact ih m mg cnt hinv v h
    | none =>
      simp only [addNewValues, hv0]
      have hinv' : ∀ n, (alookup n (setKV v0 (gen cnt) m)).isSome →
          n ∈ (mg ++ [PropOption.mk (gen cnt) v0]).map PropOption.name := by
        intro n hn
        by_cases hn0 : n = v0
        · subst hn0; simp
        · rw [alookup_setKV_ne v0 n (gen cnt) m hn0] at hn
          have := hinv n hn
          simp only [List.map_append, List.mem_append]
          exact Or.inl this
      rcases List.mem_cons.mp hv with h | h
      · subst h
        obtain ⟨suf, h1, -, -⟩ :=
          addNewValues_spec gen vs (setKV v (gen cnt) m) (mg ++ [PropOption.mk (gen cnt) v]) (cnt + 1)
        rw [h1, List.map_append]
        exact List.mem_append_left _ (by simp)
      · exact ih (setKV v0 (gen cnt) m) (mg ++ [PropOption.mk (gen cnt) v0]) (cnt + 1) hinv' v h

theorem addNewValues_fresh (gen : Nat → String) (vs : List String) :
    ∀ (m : List (String × String)) (mg : List PropOption) (cnt : Nat) (v : String),
    v ∈ vs → alookup v m = none →
    ∃ k, cnt ≤ k ∧ k < (addNewValues gen m mg cnt vs).2 ∧
      PropOption.mk (gen k) v ∈ (addNewValues gen m mg cnt vs).1 := by
  induction vs with
  | nil => intro m mg cnt v hv _; simp at hv
  | cons v0 vs ih =>
    intro m mg cnt v hv hnone
    by_cases hvv : v = v0
    · subst hvv
      match hv0 : alookup v m with
      | some x => rw [hv0] at hnone; exact absurd hnone (by simp)
      | none =>
        simp only [addNewValues, hv0]
        obtain ⟨suf, h1, -, h3⟩ :=
          addNewValues_spec gen vs (setKV v (gen cnt) m) (mg ++ [PropOption.mk (gen cnt) v]) (cnt + 1)
        refine ⟨cnt, le_refl cnt, ?_, ?_⟩
        · rw [h3]; omega
        · rw [h1]
          exact List.mem_append_left _ (by simp)
    · have hvs : v ∈ vs := by
        rcases List.mem_cons.mp hv with h | h
        · exact absurd h hvv
        · exact h
      match hv0 : alookup v0 m with
      | some x =>
        simp only [addNewValues, hv0]
        exact ih m mg cnt v hvs hnone
      | none =>
        simp only [addNewValues, hv0]
        have hnone' : alookup v (setKV v0 (gen cnt) m) = none := by
          rw [alookup_setKV_ne v0 v (gen cnt) m hvv]; exact hnone
        obtain ⟨k, hk1, hk2, hk3⟩ :=
          ih (setKV v0 (gen cnt) m) (mg ++ [PropOption.mk (gen cnt) v0]) (cnt + 1) v hvs hnone'
        exact ⟨k, by omega, hk2, hk3⟩

theorem mem_wfOptions {e : OptEntry} {l : List OptEntry} {n i : String}
    (he : e ∈ l) (hn : e.name = some n) (hi : e.id = some i) :
    PropOption.mk i n ∈ wfOptions l := by
  rw [wfOptions, List.mem_filterMap]
  exact ⟨e, he, by rw [hn, hi]⟩

theorem map_wfOptions_name (l : List OptEntry) :
    (wfOptions l).map PropOption.name = wfNames l := by
  induction l with
  | nil => rfl
  | cons e rest ih =>
    match hn : e.name, hi : e.id with
    | some n, some i => simp [wfOptions, wfNames, List.filterMap_cons, hn, hi] at ih ⊢; exact ih
    | some n, none => simp [wfOptions, wfNames, List.filterMap_cons, hn, hi] at ih ⊢; exact ih
    | none, some i => simp [wfOptions, wfNames, List.filterMap_cons, hn, hi] at ih ⊢; exact ih
    | none, none => simp [wfOptions, wfNames, List.filterMap_cons, hn, hi] at ih ⊢; exact ih

theorem wfOptions_toOptEntryList (l : List PropOption) :
    wfOptions (toOptEntryList l) = l := by
  induction l with
  | nil => rfl
  | cons o rest ih => simp [wfOptions, toOptEntryList, List.filterMap_cons] at ih ⊢; exact ih

theorem wfNames_toOptEntryList (l : List PropOption) :
    wfNames (toOptEntryList l) = l.map PropOption.name := by
  induction l with
  | nil => rfl
  | cons o rest ih => simp [wfNames, toOptEntryList, List.filterMap_cons] at ih ⊢; exact ih

theorem mergeOptions_merged_split (gen : Nat → String) (existing : List OptEntry)
    (newValues : List String) :
    ∃ suf, (mergeOptions gen existing newValues).1 = wfOptions existing ++ suf ∧
      (∀ o ∈ suf, o.name ∉ wfNames existing) ∧
      (mergeOptions gen existing newValues).2 = suf.length := by
  obtain ⟨suf, h1, h2, h3⟩ :=
    addNewValues_spec gen newValues (buildExisting ([], []) existing).1
      (buildExisting ([], []) existing).2 0
  have hmg : (buildExisting ([], []) existing).2 = wfOptions existing := by
    have := buildExisting_merged existing [] []
    simpa using this
  refine ⟨suf, ?_, ?_, ?_⟩
  · rw [mergeOptions, h1, hmg]
  · intro o ho hmem
    have hkey := (buildExisting_keys existing [] [] o.name).mpr
      (Or.inr hmem)
    rw [h2 o ho] at hkey
    simp at hkey
  · rw [mergeOptions, h3]; omega

/-- C1: `mergeOptions` never changes an ID already present in the existing
list: every well-formed existing entry's (name, id) pairing appears
unchanged in the merged output, and every merged option either is the copy
of a well-formed existing pairing or carries a name that is not among the
names of the existing entries (the names participating in deduplication,
i.e. the names of the well-formed entries — per the specification,
malformed entries do not participate in deduplication). -/
theorem mergeOptions_preserves_existing (gen : Nat → String)
    (existing : List OptEntry) (newValues : List String) :
    (∀ e ∈ existing, ∀ n i, e.name = some n → e.id = some i →
      PropOption.mk i n ∈ (mergeOptions gen existing newValues).1) ∧
    (∀ o ∈ (mergeOptions gen existing newValues).1,
      o ∈ wfOptions existing ∨ o.name ∉ wfNames existing) := by
  obtain ⟨suf, h1, h2, -⟩ := mergeOptions_merged_split gen existing newValues
  constructor
  · intro e he n i hn hi
    rw [h1]
    exact List.mem_append_left _ (mem_wfOptions he hn hi)
  · intro o ho
    rw [h1] at ho
    rcases List.mem_append.mp ho with h | h
    · exact Or.inl h
    · exact Or.inr (h2 o h)

theorem mergeOptions_preserves_existing_witness :
    PropOption.mk "id1" "A" ∈
      (mergeOptions (fun n => "new" ++ toString n)
        [⟨some "A", some "id1"⟩] ["A", "B"]).1 :=
  (mergeOptions_preserves_existing (fun n => "new" ++ toString n)
      [⟨some "A", some "id1"⟩] ["A", "B"]).1
    ⟨some "A", some "id1"⟩ (by decide) "A" "id1" rfl rfl

/-- C2: `mergeOptions` is idempotent: re-running it on the first call's
merged result (read back as option entries, every one of which carries its
id and name) with the same new-value list adds nothing and returns the
identical merged list with an added-count of 0, whichever fresh-ID
generator the second call uses. -/
theorem mergeOptions_idempotent (gen gen' : Nat → String)
    (existing : List OptEntry) (newValues : List String) :
    mergeOptions gen'
        (toOptEntryList (mergeOptions gen existing newValues).1) newValues
      = ((mergeOptions gen existing newValues).1, 0) := by
  set m1 := (mergeOptions gen existing newValues).1 with hm1
  -- every new value ends up among the names of the first merged list
  have hnames : ∀ v ∈ newValues, v ∈ m1.map PropOption.name := by
    intro v hv
    have hinv : ∀ n, (alookup n (buildExisting ([], []) existing).1).isSome →
        n ∈ ((buildExisting ([], []) existing).2).map PropOption.name := by
      intro n hn
      have := (buildExisting_keys existing [] [] n).mp hn
      rcases this with h | h
      · simp [alookup] at h
      · have hmg : (buildExisting ([], []) existing).2 = wfOptions existing := by
          simpa using buildExisting_merged existing [] []
        rw [hmg, map_wfOptions_name]
        exact h
    have := addNewValues_mem_names gen newValues
      (buildExisting ([], []) existing).1 (buildExisting ([], []) existing).2 0
      hinv v hv
    rw [hm1, mergeOptions]
    exact this
  -- the second call copies m1 and skips every new value
  have hbe2 : buildExisting ([], []) (toOptEntryList m1)
      = ((buildExisting ([], []) (toOptEntryList m1)).1, m1) := by
    have h2 : (buildExisting ([], []) (toOptEntryList m1)).2 = m1 := by
      have := buildExisting_merged (toOptEntryList m1) [] []
      simpa [wfOptions_toOptEntryList] using this
    exact Prod.ext rfl h2
  have hknown : ∀ v ∈ newValues,
      (alookup v (buildExisting ([], []) (toOptEntryList m1)).1).isSome := by
    intro v hv
    rw [buildExisting_keys (toOptEntryList m1) [] [] v]
    refine Or.inr ?_
    rw [wfNames_toOptEntryList]
    exact hnames v hv
  rw [mergeOptions]
  rw [show (buildExisting ([], []) (toOptEntryList m1)).2 = m1 from
    congrArg Prod.snd hbe2]
  exact addNewValues_all_known gen' newValues _ m1 0 hknown

/-- Counterexample to C3 as stated: the existing list
`[{"id": "X"}]` (entry missing its name) with no new values yields an
empty merged output — the malformed entry is dropped, not "included
verbatim in the merged output" as the claim asserts. -/
theorem mergeOptions_malformed_dropped_cex :
    (mergeOptions (fun n => "new" ++ toString n) [⟨none, some "X"⟩] []).1 = [] := by
  decide

/-- C3 (amended): a malformed existing entry (missing its name or its id) is
omitted from the merged output — only well-formed entries are copied, in
order, and every remaining merged option is one of the newly added ones —
and the malformed entry is excluded from name deduplication: a new value
whose name is not carried by any well-formed existing entry (even if a
malformed entry carries it) is still appended with a freshly minted ID. -/
theorem mergeOptions_malformed_excluded (gen : Nat → String)
    (existing : List OptEntry) (newValues : List String) :
    ((mergeOptions gen existing newValues).1.take (wfOptions existing).length
        = wfOptions existing ∧
      (mergeOptions gen existing newValues).1.length
        = (wfOptions existing).length + (mergeOptions gen existing newValues).2) ∧
    (∀ v ∈ newValues, v ∉ wfNames existing →
      ∃ k, k < (mergeOptions gen existing newValues).2 ∧
        PropOption.mk (gen k) v ∈ (mergeOptions gen existing newValues).1) := by
  obtain ⟨suf, h1, -, h3⟩ := mergeOptions_merged_split gen existing newValues
  refine ⟨⟨?_, ?_⟩, ?_⟩
  · rw [h1, List.take_left]
  · rw [h1, List.length_append, h3]
  · intro v hv hnot
    have hnone : alookup v (buildExisting ([], []) existing).1 = none := by
      by_contra hcon
      have : (alookup v (buildExisting ([], []) existing).1).isSome := by
        cases h : alookup v (buildExisting ([], []) existing).1 with
        | none => exact absurd h hcon
        | some _ => simp [h]
      exact hnot (((buildExisting_keys existing [] [] v).mp this).resolve_left
        (by simp [alookup]))
    obtain ⟨k, -, hk2, hk3⟩ := addNewValues_fresh gen newValues
      (buildExisting ([], []) existing).1 (buildExisting ([], []) existing).2 0
      v hv hnone
    exact ⟨k, by rw [mergeOptions]; exact hk2, by rw [mergeOptions]; exact hk3⟩

theorem mergeOptions_malformed_excluded_witness :
    ∃ k, k < (mergeOptions (fun n => "new" ++ toString n)
        [⟨some "X", none⟩] ["X"]).2 ∧
      PropOption.mk ((fun n => "new" ++ toString n) k) "X" ∈
        (mergeOptions (fun n => "new" ++ toString n) [⟨some "X", none⟩] ["X"]).1 :=
  (mergeOptions_malformed_excluded (fun n => "new" ++ toString n)
      [⟨some "X", none⟩] ["X"]).2 "X" (by decide) (by decide)

/-- One user record as handed to the sync code: a Go
`map[string]interface{}` of attribute names to values, embedded as an
association list (Go maps have unique keys; lemmas that depend on this
carry a `Nodup` hypothesis on the keys). -/
abbrev Record := List (String × GoValue)

/-- Option alternation: the first operand if it is `some`, else the second. -/
def optOr (a b : Option α) : Option α :=
  match a with
  | some v => some v
  | none => b

theorem optOr_none_right (a : Option α) : optOr a none = a := by
  cases a <;> rfl

theorem optOr_none_left (b : Option α) : optOr none b = b := rfl

theorem optOr_assoc (a b c : Option α) :
    optOr (optOr a b) c = optOr a (optOr b c) := by
  cases a <;> rfl

theorem alookup_eq_none_of_not_mem_keys {l : List (String × α)} {name : String}
    (h : name ∉ l.map Prod.fst) : alookup name l = none := by
  induction l with
  | nil => rfl
  | cons p rest ih =>
    simp only [List.map_cons, List.mem_cons] at h
    push_neg at h
    simp only [alookup, ih h.2]
    rw [if_neg (fun hh => h.1 hh.symm)]

theorem alookup_append_single (name k : String) (v : α) (l : List (String × α)) :
    alookup name (l ++ [(k, v)])
      = optOr (alookup name l) (if k = name then some v else none) := by
  induction l with
  | nil => simp [alookup, optOr]
  | cons p rest ih =>
    rw [List.cons_append]
    simp only [alookup]
    by_cases h : p.1 = name
    · rw [if_pos h, if_pos h]; rfl
    · rw [if_neg h, if_neg h, ih]

/-- Processing of a single user record by `discoverFields`
(server/sync/field_discovery.go): skip the "email" key, skip nil values,
and record a first sample for each field name not seen before. -/
def processRecord (fields : List (String × GoValue)) (user : Record) :
    List (String × GoValue) :=
  user.foldl
    (fun fields p =>
      if p.1 = "email" then fields
      else if p.2 = GoValue.null then fields
      else if (alookup p.1 fields).isSome then fields
      else fields ++ [p])
    fields

/-- Embedding of `discoverFields` from server/sync/field_discovery.go:
scan all users in order and collect, for each field name other than
"email", the first non-nil value encountered. -/
def discoverFields (users : List Record) : List (String × GoValue) :=
  users.foldl processRecord []

/-- The sample a single record contributes for a field name, stated from
the claim: the record's value for that name when present and non-null. -/
def recordSample (user : Record) (name : String) : Option GoValue :=
  match alookup name user with
  | some v => if v = GoValue.null then none else some v
  | none => none

/-- The first non-null value for a field name across the records in record
order, stated from the claim's wording. -/
def firstSample : List Record → String → Option GoValue
  | [], _ => none
  | u :: rest, name => optOr (recordSample u name) (firstSample rest name)

theorem processRecord_lookup (user : Record)
    (hnd : (user.map Prod.fst).Nodup) (fields : List (String × GoValue))
    (name : String) :
    alookup name (processRecord fields user)
      = if name = "email" then alookup name fields
        else optOr (alookup name fields) (recordSample user name) := by
  induction user generalizing fields with
  | nil =>
    by_cases h : name = "email" <;>
      simp [processRecord, recordSample, alookup, h, optOr_none_right]
  | cons p rest ih =>
    have hnd' : (rest.map Prod.fst).Nodup := (List.nodup_cons.mp hnd).2
    have hnotin : p.1 ∉ rest.map Prod.fst := (List.nodup_cons.mp hnd).1
    have hstep : processRecord fields (p :: rest)
        = processRecord
            (if p.1 = "email" then fields
             else if p.2 = GoValue.null then fields
             else if (alookup p.1 fields).isSome then fields
             else fields ++ [p]) rest := by
      simp [processRecord]
    rw [hstep]
    by_cases hemail : p.1 = "email"
    · rw [if_pos hemail, ih hnd']
      by_cases hname : name = "email"
      · simp [hname]
      · have hpn : p.1 ≠ name := fun h => hname (h ▸ hemail)
        simp only [if_neg hname, recordSample, alookup, if_neg hpn]
    · rw [if_neg hemail]
      by_cases hnull : p.2 = GoValue.null
      · rw [if_pos hnull, ih hnd']
        by_cases hname : name = "email"
        · simp [hname]
        · simp only [if_neg hname]
          by_cases hpn : p.1 = name
          · have : alookup name rest = none :=
              alookup_eq_none_of_not_mem_keys (hpn ▸ hnotin)
            simp [recordSample, alookup, hpn, hnull, this]
          · simp [recordSample, alookup, hpn]
      · rw [if_neg hnull]
        by_cases hseen : (alookup p.1 fields).isSome
        · rw [if_pos hseen, ih hnd']
          by_cases hname : name = "email"
          · simp [hname]
          · simp only [if_neg hname]
            by_cases hpn : p.1 = name
            · obtain ⟨x, hx⟩ := Option.isSome_iff_exists.mp hseen
              have : alookup name rest = none :=
                alookup_eq_none_of_not_mem_keys (hpn ▸ hnotin)
              simp [recordSample, alookup, hpn, hpn ▸ hx, optOr, this, hnull]
            · simp [recordSample, alookup, hpn]
        · rw [if_neg hseen, ih hnd']
          by_cases hname : name = "email"
          · simp only [if_pos hname]
            rw [show (fields ++ [p]) = (fields ++ [(p.1, p.2)]) by simp,
              alookup_append_single]
            have hpn : p.1 ≠ name := fun h => hemail (h.trans hname)
            simp [hpn, optOr_none_right]
          · simp only [if_neg hname]
            rw [show (fields ++ [p]) = (fields ++ [(p.1, p.2)]) by simp,
              alookup_append_single]
            by_cases hpn : p.1 = name
            · have : alookup name rest = none :=
                alookup_eq_none_of_not_mem_keys (hpn ▸ hnotin)
              have hfe : alookup p.1 fields = none := by
                cases h : alookup p.1 fields with
                | none => rfl
                | some _ => rw [h] at hseen; simp at hseen
              simp [recordSample, alookup, hpn, this, hpn ▸ hfe, optOr, hnull]
            · simp [recordSample, alookup, hpn, optOr_assoc, optOr_none_left]

theorem discoverFields_go (users : List Record) :
    ∀ (fields : List (String × GoValue)),
    (∀ u ∈ users, (u.map Prod.fst).Nodup) → ∀ name,
    alookup name (users.foldl processRecord fields)
      = if name = "email" then alookup name fields
        else optOr (alookup name fields) (firstSample users name) := by
  induction users with
  | nil =>
    intro fields _ name
    by_cases h : name = "email" <;> simp [firstSample, h, optOr_none_right]
  | cons u rest ih =>
    intro fields hnd name
    have hu : (u.map Prod.fst).Nodup := hnd u (List.mem_cons_self u rest)
    have hrest : ∀ u' ∈ rest, (u'.map Prod.fst).Nodup :=
      fun u' hu' => hnd u' (List.mem_cons_of_mem u hu')
    rw [List.foldl_cons, ih (processRecord fields u) hrest name]
    by_cases h : name = "email"
    · rw [if_pos h, if_pos h, processRecord_lookup u hu fields name, if_pos h]
    · rw [if_neg h, if_neg h, processRecord_lookup u hu fields name, if_neg h,
        optOr_assoc]
      rfl

/-- C5: for every batch of records with Go-map (duplicate-free) keys,
field discovery returns exactly the fields having a non-null value in some
record, excluding the identity field "email"; the retained sample is the
first non-null value in record order, and a field that is null in every
record is absent from the result. -/
theorem discoverFields_spec (users : List Record)
    (hnd : ∀ u ∈ users, (u.map Prod.fst).Nodup) (name : String) :
    alookup name (discoverFields users)
      = if name = "email" then none else firstSample users name := by
  rw [discoverFields, discoverFields_go users [] hnd name]
  by_cases h : name = "email" <;> simp [h, alookup, optOr]

theorem discoverFields_spec_witness :
    alookup "dept"
        (discoverFields
          [[("email", GoValue.str "a@x.com"), ("dept", GoValue.null)],
           [("dept", GoValue.str "Eng")]])
      = if "dept" = "email" then none
        else firstSample
          [[("email", GoValue.str "a@x.com"), ("dept", GoValue.null)],
           [("dept", GoValue.str "Eng")]] "dept" :=
  discoverFields_spec
    [[("email", GoValue.str "a@x.com"), ("dept", GoValue.null)],
     [("dept", GoValue.str "Eng")]]
    (by decide) "dept"

/-- Contents of the persistent KV store (server/store/kvstore): field
mappings (`field_mapping_{name}` keys), per-field option maps
(`field_options_{name}` keys) and the last-sync timestamp. -/
structure KVState where
  mappings : List (String × String)
  options : List (String × List (String × String))
  lastSync : Option String
  deriving DecidableEq, Repr

/-- In-memory state of `fieldCacheImpl` (src/unnamed/part_003): the two
lazy-loaded maps. -/
structure CacheState where
  fieldMappings : List (String × String)
  fieldOptions : List (String × List (String × String))
  deriving DecidableEq, Repr

/-- State threaded through a sync pass: the cache, the KV store behind it,
and the running counter feeding the `model.NewId()` generator. -/
structure SyncState where
  cache : CacheState
  store : KVState
  ctr : Nat
  deriving DecidableEq, Repr

/-- Oracles for the collaborators of the sync engine: outcomes of remote
Mattermost API calls (field creation, search, fetch, update) and failure
injection for KV store reads and writes (the concrete `kvstore.Client`
never fails its reads, but the `KVStore` interface allows it), plus the
fresh-ID generator modelling `model.NewId()`. -/
structure Env where
  createField : String → Except Unit String
  searchField : String → FieldType → Except Unit (Option String)
  getRemoteOptions : String → Except Unit (List OptEntry)
  updateField : String → Except Unit Unit
  readMappingFails : String → Bool
  readOptionsFails : String → Bool
  saveMappingFails : String → Bool
  saveOptionsFails : String → Bool
  gen : Nat → String

/-- Embedding of `fieldCacheImpl.GetFieldID` (src/unnamed/part_003): return
the cached ID on a hit; otherwise read through to the KV store (whose
`GetFieldMapping` yields "" for a missing key), cache the result — the
empty string included — and return it; a failing store read is an error
and caches nothing. -/
def cacheGetFieldID (env : Env) (st : SyncState) (fieldName : String) :
    Except Unit String × SyncState :=
  match alookup fieldName st.cache.fieldMappings with
  | some fieldID => (.ok fieldID, st)
  | none =>
    if env.readMappingFails fieldName then (.error (), st)
    else
      let fieldID := (alookup fieldName st.store.mappings).getD ""
      (.ok fieldID,
        { st with cache := { st.cache with
            fieldMappings := setKV fieldName fieldID st.cache.fieldMappings } })

/-- Embedding of `fieldCacheImpl.GetOptionID`: on a miss for the field,
load and cache that field's whole option map from the KV store (an empty
map when absent), then answer from the cached map, "" for an unknown
option name. -/
def cacheGetOptionID (env : Env) (st : SyncState)
    (fieldName optionName : String) : Except Unit String × SyncState :=
  match alookup fieldName st.cache.fieldOptions with
  | some options => (.ok ((alookup optionName options).getD ""), st)
  | none =>
    if env.readOptionsFails fieldName then (.error (), st)
    else
      let options := (alookup fieldName st.store.options).getD []
      (.ok ((alookup optionName options).getD ""),
        { st with cache := { st.cache with
            fieldOptions := setKV fieldName options st.cache.fieldOptions } })

/-- Embedding of `fieldCacheImpl.SaveFieldMapping`: update the in-memory
map first, then write through to the KV store; on a persistence failure
the in-memory update stays and the error is returned. -/
def cacheSaveFieldMapping (env : Env) (st : SyncState)
    (fieldName fieldID : String) : Except Unit Unit × SyncState :=
  let st1 := { st with cache := { st.cache with
      fieldMappings := setKV fieldName fieldID st.cache.fieldMappings } }
  if env.saveMappingFails fieldName then (.error (), st1)
  else (.ok (), { st1 with store := { st1.store with
      mappings := setKV fieldName fieldID st1.store.mappings } })

/-- Embedding of `fieldCacheImpl.SaveFieldOptions`: cache the option map
(the Go deep copy is the identity in this pure model), then write through
to the KV store. -/
def cacheSaveFieldOptions (env : Env) (st : SyncState)
    (fieldName : String) (options : List (String × String)) :
    Except Unit Unit × SyncState :=
  let st1 := { st with cache := { st.cache with
      fieldOptions := setKV fieldName options st.cache.fieldOptions } }
  if env.saveOptionsFails fieldName then (.error (), st1)
  else (.ok (), { st1 with store := { st1.store with
      options := setKV fieldName options st1.store.options } })

/-- One cache read call in a `GetFieldID`/`GetOptionID` call sequence. -/
inductive CacheOp where
  | getField (name : String)
  | getOption (field opt : String)
  deriving DecidableEq, Repr

/-- A backing-store read event: a field-mapping read or a whole-option-set
read. -/
inductive ReadEv where
  | fieldRead (name : String)
  | optionsRead (field : String)
  deriving DecidableEq, Repr

/-- Number of occurrences of a read event in an event list. -/
def countEv (e : ReadEv) : List ReadEv → Nat
  | [] => 0
  | x :: rest => (if x = e then 1 else 0) + countEv e rest

theorem countEv_append (e : ReadEv) (l1 l2 : List ReadEv) :
    countEv e (l1 ++ l2) = countEv e l1 + countEv e l2 := by
  induction l1 with
  | nil => simp [countEv]
  | cons x rest ih => simp [countEv, ih]; omega

/-- Run a sequence of cache read calls, recording results and backing-store
read events (a read happens exactly on a cache miss, as in the source). -/
def runCacheOps (env : Env) (st : SyncState) :
    List CacheOp → List (Except Unit String) × SyncState × List ReadEv
  | [] => ([], st, [])
  | op :: rest =>
    match op with
    | .getField n =>
      let evs0 : List ReadEv :=
        if (alookup n st.cache.fieldMappings).isSome then [] else [.fieldRead n]
      let r := cacheGetFieldID env st n
      let k := runCacheOps env r.2 rest
      (r.1 :: k.1, k.2.1, evs0 ++ k.2.2)
    | .getOption f o =>
      let evs0 : List ReadEv :=
        if (alookup f st.cache.fieldOptions).isSome then [] else [.optionsRead f]
      let r := cacheGetOptionID env st f o
      let k := runCacheOps env r.2 rest
      (r.1 :: k.1, k.2.1, evs0 ++ k.2.2)

/-- The answer the backing store holds for one cache call: the stored field
ID (or "") for `getField`, the stored option ID (or "") for `getOption`. -/
def cacheOpSpec (kv : KVState) : CacheOp → Except Unit String
  | .getField n => .ok ((alookup n kv.mappings).getD "")
  | .getOption f o => .ok ((alookup o ((alookup f kv.options).getD [])).getD "")

theorem runCacheOps_go (env : Env)
    (hrm : ∀ n, env.readMappingFails n = false)
    (hro : ∀ f, env.readOptionsFails f = false) (kv : KVState) :
    ∀ (ops : List CacheOp) (st : SyncState), st.store = kv →
    (∀ n v, alookup n st.cache.fieldMappings = some v →
      v = (alookup n kv.mappings).getD "") →
    (∀ f opts, alookup f st.cache.fieldOptions = some opts →
      opts = (alookup f kv.options).getD []) →
    (runCacheOps env st ops).1 = ops.map (cacheOpSpec kv) ∧
    (∀ n, countEv (.fieldRead n) (runCacheOps env st ops).2.2 ≤
      (if (alookup n st.cache.fieldMappings).isSome then 0 else 1)) ∧
    (∀ f, countEv (.optionsRead f) (runCacheOps env st ops).2.2 ≤
      (if (alookup f st.cache.fieldOptions).isSome then 0 else 1)) := by
  intro ops
  induction ops with
  | nil =>
    intro st hst hi1 hi2
    refine ⟨rfl, ?_, ?_⟩ <;> intro x <;> simp [runCacheOps, countEv]
  | cons op rest ih =>
    intro st hst hi1 hi2
    cases op with
    | getField n =>
      match hc : alookup n st.cache.fieldMappings with
      | some v =>
        have hr : cacheGetFieldID env st n = (.ok v, st) := by
          simp [cacheGetFieldID, hc]
        obtain ⟨ihres, ihf, iho⟩ := ih st hst hi1 hi2
        refine ⟨?_, ?_, ?_⟩
        · simp only [runCacheOps, hr, hc, Option.isSome_some, if_pos, ihres,
            List.map_cons, List.nil_append]
          rw [hi1 n v hc]
          rfl
        · intro m
          simp only [runCacheOps, hr, hc, Option.isSome_some, if_pos,
            List.nil_append]
          exact ihf m
        · intro f
          simp only [runCacheOps, hr, hc, Option.isSome_some, if_pos,
            List.nil_append]
          exact iho f
      | none =>
        have hr : cacheGetFieldID env st n =
            (.ok ((alookup n kv.mappings).getD ""),
             { st with cache := { st.cache with
                 fieldMappings := setKV n ((alookup n kv.mappings).getD "")
                   st.cache.fieldMappings } }) := by
          simp [cacheGetFieldID, hc, hrm n, hst]
        set st' := { st with cache := { st.cache with
            fieldMappings := setKV n ((alookup n kv.mappings).getD "")
              st.cache.fieldMappings } } with hst'
        have hi1' : ∀ m v, alookup m st'.cache.fieldMappings = some v →
            v = (alookup m kv.mappings).getD "" := by
          intro m v hm
          by_cases hmn : m = n
          · subst hmn
            rw [hst'] at hm
            simp only [alookup_setKV_self] at hm
            exact (Option.some_inj.mp hm).symm
          · rw [hst'] at hm
            simp only at hm
            rw [alookup_setKV_ne n m _ _ hmn] at hm
            exact hi1 m v hm
        obtain ⟨ihres, ihf, iho⟩ := ih st' hst hi1' (by intro f opts hm; exact hi2 f opts hm)
        refine ⟨?_, ?_, ?_⟩
        · simp only [runCacheOps, hr, hc, Option.isSome_none, List.map_cons]
          simp only [ihres]
          rfl
        · intro m
          simp only [runCacheOps, hr, hc, Option.isSome_none, Bool.false_eq_true,
            if_false, List.cons_append, List.nil_append, countEv]
          by_cases hmn : m = n
          · subst hmn
            have hbound := ihf m
            rw [show alookup m st'.cache.fieldMappings
                = some ((alookup m kv.mappings).getD "") from alookup_setKV_self m _ _] at hbound
            simp only [Option.isSome_some, if_pos] at hbound
            simp only [if_pos rfl, hc, Option.isSome_none]
            simp only [if_true, Bool.false_eq_true, if_false]
            omega
          · have hbound := ihf m
            rw [show alookup m st'.cache.fieldMappings = alookup m st.cache.fieldMappings
              from alookup_setKV_ne n m _ _ hmn] at hbound
            rw [if_neg (fun hh : ReadEv.fieldRead n = ReadEv.fieldRead m =>
              hmn (by cases hh; rfl))]
            omega
        · intro f
          simp only [runCacheOps, hr, hc, Option.isSome_none, Bool.false_eq_true,
            if_false, List.cons_append, List.nil_append, countEv]
          have hbound := iho f
          rw [if_neg (fun hh : ReadEv.fieldRead n = ReadEv.optionsRead f => by cases hh)]
          simp only [show st'.cache.fieldOptions = st.cache.fieldOptions from rfl] at hbound
          omega
    | getOption f o =>
      match hc : alookup f st.cache.fieldOptions with
      | some opts =>
        have hr : cacheGetOptionID env st f o =
            (.ok ((alookup o opts).getD ""), st) := by
          simp [cacheGetOptionID, hc]
        obtain ⟨ihres, ihf, iho⟩ := ih st hst hi1 hi2
        refine ⟨?_, ?_, ?_⟩
        · simp only [runCacheOps, hr, hc, Option.isSome_some, if_pos, ihres,
            List.map_cons, List.nil_append]
          rw [hi2 f opts hc]
          rfl
        · intro m
          simp only [runCacheOps, hr, hc, Option.isSome_some, if_pos,
            List.nil_append]
          exact ihf m
        · intro g
          simp only [runCacheOps, hr, hc, Option.isSome_some, if_pos,
            List.nil_append]
          exact iho g
      | none =>
        have hr : cacheGetOptionID env st f o =
            (.ok ((alookup o ((alookup f kv.options).getD [])).getD ""),
             { st with cache := { st.cache with
                 fieldOptions := setKV f ((alookup f kv.options).getD [])
                   st.cache.fieldOptions } }) := by
          simp [cacheGetOptionID, hc, hro f, hst]
        set st' := { st with cache := { st.cache with
            fieldOptions := setKV f ((alookup f kv.options).getD [])
              st.cache.fieldOptions } } with hst'
        have hi2' : ∀ g opts, alookup g st'.cache.fieldOptions = some opts →
            opts = (alookup g kv.options).getD [] := by
          intro g opts hm
          by_cases hgf : g = f
          · subst hgf
            rw [hst'] at hm
            simp only [alookup_setKV_self] at hm
            exact (Option.some_inj.mp hm).symm
          · rw [hst'] at hm
            simp only at hm
            rw [alookup_setKV_ne f g _ _ hgf] at hm
            exact hi2 g opts hm
        obtain ⟨ihres, ihf, iho⟩ := ih st' hst (by intro m v hm; exact hi1 m v hm) hi2'
        refine ⟨?_, ?_, ?_⟩
        · simp only [runCacheOps, hr, hc, Option.isSome_none, List.map_cons]
          simp only [ihres]
          rfl
        · intro m
          simp only [runCacheOps, hr, hc, Option.isSome_none, Bool.false_eq_true,
            if_false, List.cons_append, List.nil_append, countEv]
          have hbound := ihf m
          rw [if_neg (fun hh : ReadEv.optionsRead f = ReadEv.fieldRead m => by cases hh)]
          simp only [show st'.cache.fieldMappings = st.cache.fieldMappings from rfl] at hbound
          omega
        · intro g
          simp only [runCacheOps, hr, hc, Option.isSome_none, Bool.false_eq_true,
            if_false, List.cons_append, List.nil_append, countEv]
          by_cases hgf : g = f
          · subst hgf
            have hbound := iho g
            rw [show alookup g st'.cache.fieldOptions
                = some ((alookup g kv.options).getD []) from alookup_setKV_self g _ _] at hbound
            simp only [Option.isSome_some, if_pos] at hbound
            simp only [if_pos rfl, hc, Option.isSome_none]
            simp only [if_true, Bool.false_eq_true, if_false]
            omega
          · have hbound := iho g
            rw [show alookup g st'.cache.fieldOptions = alookup g st.cache.fieldOptions
              from alookup_setKV_ne f g _ _ hgf] at hbound
            rw [if_neg (fun hh : ReadEv.optionsRead f = ReadEv.optionsRead g =>
              hgf (by cases hh; rfl))]
            omega

/-- C6: starting from a freshly constructed cache over a store whose reads
never fail, any sequence of `GetFieldID`/`GetOptionID` calls reads the
backing store at most once per distinct field name and at most once per
distinct field's option set — "" not-found answers included — and every
call returns, without error, the value the backing store holds. -/
theorem fieldCache_read_through (env : Env) (kv : KVState) (ops : List CacheOp)
    (hrm : ∀ n, env.readMappingFails n = false)
    (hro : ∀ f, env.readOptionsFails f = false) :
    (runCacheOps env ⟨⟨[], []⟩, kv, 0⟩ ops).1 = ops.map (cacheOpSpec kv) ∧
    (∀ n, countEv (.fieldRead n) (runCacheOps env ⟨⟨[], []⟩, kv, 0⟩ ops).2.2 ≤ 1) ∧
    (∀ f, countEv (.optionsRead f) (runCacheOps env ⟨⟨[], []⟩, kv, 0⟩ ops).2.2 ≤ 1) := by
  obtain ⟨hres, hf, ho⟩ := runCacheOps_go env hrm hro kv ops ⟨⟨[], []⟩, kv, 0⟩
    rfl (by intro n v h; simp [alookup] at h) (by intro f opts h; simp [alookup] at h)
  refine ⟨hres, ?_, ?_⟩
  · intro n
    have := hf n
    simpa [alookup] using this
  · intro f
    have := ho f
    simpa [alookup] using this

/-- A concrete environment with reliable KV store operations and inert
remote oracles, used to instantiate hypotheses at concrete inputs. -/
def reliableEnv : Env where
  createField := fun _ => .error ()
  searchField := fun _ _ => .ok none
  getRemoteOptions := fun _ => .ok []
  updateField := fun _ => .ok ()
  readMappingFails := fun _ => false
  readOptionsFails := fun _ => false
  saveMappingFails := fun _ => false
  saveOptionsFails := fun _ => false
  gen := fun n => "new" ++ toString n

/-- A concrete KV store: one field mapping and one option set. -/
def kvSample : KVState where
  mappings := [("a", "ida")]
  options := [("f", [("x", "idx")])]
  lastSync := none

/-- A concrete call sequence with repeated hits, a not-found field and a
not-found option. -/
def opsSample : List CacheOp :=
  [.getField "a", .getField "a", .getField "b", .getOption "f" "x",
   .getOption "f" "y", .getOption "f" "x"]

theorem fieldCache_read_through_witness :
    (runCacheOps reliableEnv ⟨⟨[], []⟩, kvSample, 0⟩ opsSample).1
      = opsSample.map (cacheOpSpec kvSample) ∧
    countEv (.fieldRead "a")
      (runCacheOps reliableEnv ⟨⟨[], []⟩, kvSample, 0⟩ opsSample).2.2 ≤ 1 ∧
    countEv (.optionsRead "f")
      (runCacheOps reliableEnv ⟨⟨[], []⟩, kvSample, 0⟩ opsSample).2.2 ≤ 1 :=
  ⟨(fieldCache_read_through reliableEnv kvSample opsSample
      (fun _ => rfl) (fun _ => rfl)).1,
   (fieldCache_read_through reliableEnv kvSample opsSample
      (fun _ => rfl) (fun _ => rfl)).2.1 "a",
   (fieldCache_read_through reliableEnv kvSample opsSample
      (fun _ => rfl) (fun _ => rfl)).2.2 "f"⟩

/-- Embedding of `extractMultiselectOptions` (src/unnamed/part_009):
collect the distinct non-empty string elements of every user's
`[]interface{}` value for the field, skipping absent fields, non-array
values and non-string elements.  The Go code collects into a map-backed
set and returns it in Go's unspecified map iteration order; this model
fixes first-seen order, which no caller's observable mapping state depends
on. -/
def extractMultiselectOptions (users : List Record) (fieldName : String) :
    List String :=
  users.foldl
    (fun acc user =>
      match alookup fieldName user with
      | none => acc
      | some v =>
        match v with
        | .arr items =>
          items.foldl
            (fun acc item =>
              match item with
              | .str s =>
                if s = "" then acc else if s ∈ acc then acc else acc ++ [s]
              | .other => acc)
            acc
        | _ => acc)
    []

/-- Fresh `{id, name}` options for the initial option values of a new
multiselect field, one `model.NewId()` per value
(`createMultiselectFieldWithOptions`, option-building loop). -/
def mintOptions (gen : Nat → String) : Nat → List String → List PropOption
  | _, [] => []
  | base, v :: vs => ⟨gen base, v⟩ :: mintOptions gen (base + 1) vs

/-- The option name → ID map built from an option list before saving it
through the cache (the `optionsMap` loops in part_009). -/
def optionsToMap (opts : List PropOption) : List (String × String) :=
  opts.foldl (fun m o => setKV o.name o.id m) []

/-- Embedding of `createPropertyField` (src/unnamed/part_009): create the
field remotely; on success save the mapping through the cache, and — as in
the source — return an error (with the cache already updated in memory)
when that save fails, which sends `SyncFields` into its fallback path. -/
def createPropertyFieldM (env : Env) (st : SyncState) (fieldName : String) :
    Except Unit String × SyncState :=
  match env.createField fieldName with
  | .error _ => (.error (), st)
  | .ok newID =>
    let r := cacheSaveFieldMapping env st fieldName newID
    match r.1 with
    | .error _ => (.error (), r.2)
    | .ok _ => (.ok newID, r.2)

/-- Embedding of `createMultiselectFieldWithOptions`
(src/unnamed/part_009): mint IDs for the extracted option values, create
the field with them, save the field mapping (a failure is an error, after
the in-memory cache update), then save the option map through the cache
(a failure there is only logged). -/
def createMultiselectFieldWithOptionsM (env : Env) (st : SyncState)
    (fieldName : String) (users : List Record) :
    Except Unit String × SyncState :=
  let optionValues := extractMultiselectOptions users fieldName
  let options := mintOptions env.gen st.ctr optionValues
  let st0 := { st with ctr := st.ctr + optionValues.length }
  match env.createField fieldName with
  | .error _ => (.error (), st0)
  | .ok newID =>
    let r := cacheSaveFieldMapping env st0 fieldName newID
    match r.1 with
    | .error _ => (.error (), r.2)
    | .ok _ =>
      let r2 := cacheSaveFieldOptions env r.2 fieldName (optionsToMap options)
      (.ok newID, r2.2)

/-- Embedding of `updateMultiselectOptions` (src/unnamed/part_009): no-op
when no option values were observed; fetch the field's current options
remotely, merge append-only, skip the remote update when nothing was
added, otherwise push the update and save the merged option map through
the cache (a save failure is only logged). -/
def updateMultiselectOptionsM (env : Env) (st : SyncState)
    (fieldID fieldName : String) (users : List Record) :
    Except Unit Unit × SyncState :=
  let newOptionValues := extractMultiselectOptions users fieldName
  if newOptionValues.isEmpty then (.ok (), st)
  else
    match env.getRemoteOptions fieldID with
    | .error _ => (.error (), st)
    | .ok existingOptions =>
      let mr := mergeOptions (fun k => env.gen (st.ctr + k)) existingOptions
        newOptionValues
      let st0 := { st with ctr := st.ctr + mr.2 }
      if mr.2 = 0 then (.ok (), st0)
      else
        match env.updateField fieldID with
        | .error _ => (.error (), st0)
        | .ok _ =>
          let r := cacheSaveFieldOptions env st0 fieldName (optionsToMap mr.1)
          (.ok (), r.2)

/-- Processing of one discovered field by `SyncFields`
(src/unnamed/part_009, lines 366–468): look the field up through the cache
(a lookup error is logged and leaves the ID empty); a non-empty ID goes
into the result mapping, with an option update for multiselect samples; an
empty ID triggers creation, falling back on creation failure to a remote
search by name and type, adopting a found field into cache and mapping, or
skipping the field entirely. -/
def syncFieldStep (env : Env) (users : List Record)
    (acc : List (String × String) × SyncState) (fs : String × GoValue) :
    List (String × String) × SyncState :=
  let fieldName := fs.1
  let sampleValue := fs.2
  let g := cacheGetFieldID env acc.2 fieldName
  let existingFieldID := match g.1 with | .ok v => v | .error _ => ""
  let st := g.2
  if existingFieldID = "" then
    let fieldType := inferFieldType sampleValue
    let c :=
      if fieldType = .multiselect then
        createMultiselectFieldWithOptionsM env st fieldName users
      else createPropertyFieldM env st fieldName
    match c.1 with
    | .ok newID => (setKV fieldName newID acc.1, c.2)
    | .error _ =>
      match env.searchField fieldName fieldType with
      | .error _ => (acc.1, c.2)
      | .ok none => (acc.1, c.2)
      | .ok (some foundID) =>
        let s := cacheSaveFieldMapping env c.2 fieldName foundID
        let fieldMapping := setKV fieldName foundID acc.1
        if fieldType = .multiselect then
          let u := updateMultiselectOptionsM env s.2 foundID fieldName users
          (fieldMapping, u.2)
        else (fieldMapping, s.2)
  else
    let fieldMapping := setKV fieldName existingFieldID acc.1
    if inferFieldType sampleValue = .multiselect then
      let u := updateMultiselectOptionsM env st existingFieldID fieldName users
      (fieldMapping, u.2)
    else (fieldMapping, st)

/-- Embedding of `SyncFields` (src/unnamed/part_009): discover the fields
of the batch and process each one, starting from the given cache state
over the given KV store.  The Go range over the discovered map visits keys
in unspecified order; this model uses the discovery list's order — field
names are distinct, and each step writes mapping state only under its own
field name. -/
def SyncFields (env : Env) (users : List Record) (cache0 : CacheState)
    (kv0 : KVState) : List (String × String) × SyncState :=
  (discoverFields users).foldl (syncFieldStep env users) ([], ⟨cache0, kv0, 0⟩)

theorem cacheGetFieldID_store (env : Env) (st : SyncState) (n : String) :
    (cacheGetFieldID env st n).2.store = st.store := by
  match hc : alookup n st.cache.fieldMappings with
  | some v => simp [cacheGetFieldID, hc]
  | none =>
    by_cases hf : env.readMappingFails n <;> simp [cacheGetFieldID, hc, hf]

theorem cacheGetFieldID_cache_ne (env : Env) (st : SyncState) (n m : String)
    (h : m ≠ n) :
    alookup m (cacheGetFieldID env st n).2.cache.fieldMappings
      = alookup m st.cache.fieldMappings := by
  match hc : alookup n st.cache.fieldMappings with
  | some v => simp [cacheGetFieldID, hc]
  | none =>
    by_cases hf : env.readMappingFails n
    · simp [cacheGetFieldID, hc, hf]
    · simp [cacheGetFieldID, hc, hf, alookup_setKV_ne n m _ _ h]

theorem cacheSaveFieldMapping_store_ne (env : Env) (st : SyncState)
    (n v m : String) (h : m ≠ n) :
    alookup m (cacheSaveFieldMapping env st n v).2.store.mappings
      = alookup m st.store.mappings := by
  by_cases hf : env.saveMappingFails n <;>
    simp [cacheSaveFieldMapping, hf, alookup_setKV_ne n m _ _ h]

theorem cacheSaveFieldMapping_cache_ne (env : Env) (st : SyncState)
    (n v m : String) (h : m ≠ n) :
    alookup m (cacheSaveFieldMapping env st n v).2.cache.fieldMappings
      = alookup m st.cache.fieldMappings := by
  by_cases hf : env.saveMappingFails n <;>
    simp [cacheSaveFieldMapping, hf, alookup_setKV_ne n m _ _ h]

theorem cacheSaveFieldOptions_store_mappings (env : Env) (st : SyncState)
    (n : String) (o : List (String × String)) :
    (cacheSaveFieldOptions env st n o).2.store.mappings = st.store.mappings := by
  by_cases hf : env.saveOptionsFails n <;> simp [cacheSaveFieldOptions, hf]

theorem cacheSaveFieldOptions_cache_mappings (env : Env) (st : SyncState)
    (n : String) (o : List (String × String)) :
    (cacheSaveFieldOptions env st n o).2.cache.fieldMappings
      = st.cache.fieldMappings := by
  by_cases hf : env.saveOptionsFails n <;> simp [cacheSaveFieldOptions, hf]

theorem updateMS_store_mappings (env : Env) (st : SyncState)
    (fid fn : String) (users : List Record) :
    (updateMultiselectOptionsM env st fid fn users).2.store.mappings
      = st.store.mappings := by
  unfold updateMultiselectOptionsM
  by_cases he : (extractMultiselectOptions users fn).isEmpty
  · simp [he]
  · simp only [he, Bool.false_eq_true, if_false]
    match hg : env.getRemoteOptions fid with
    | .error e => simp
    | .ok ex =>
      simp only []
      split
      · rfl
      · split
        · rfl
        · exact cacheSaveFieldOptions_store_mappings env _ fn _

theorem updateMS_cache_mappings (env : Env) (st : SyncState)
    (fid fn : String) (users : List Record) :
    (updateMultiselectOptionsM env st fid fn users).2.cache.fieldMappings
      = st.cache.fieldMappings := by
  unfold updateMultiselectOptionsM
  by_cases he : (extractMultiselectOptions users fn).isEmpty
  · simp [he]
  · simp only [he, Bool.false_eq_true, if_false]
    match hg : env.getRemoteOptions fid with
    | .error e => simp
    | .ok ex =>
      simp only []
      split
      · rfl
      · split
        · rfl
        · exact cacheSaveFieldOptions_cache_mappings env _ fn _

theorem createPropertyFieldM_store_ne (env : Env) (st : SyncState)
    (f m : String) (h : m ≠ f) :
    alookup m (createPropertyFieldM env st f).2.store.mappings
      = alookup m st.store.mappings := by
  unfold createPropertyFieldM
  match hc : env.createField f with
  | .error e => simp
  | .ok nid =>
    simp only []
    split <;> exact cacheSaveFieldMapping_store_ne env st f nid m h

theorem createPropertyFieldM_cache_ne (env : Env) (st : SyncState)
    (f m : String) (h : m ≠ f) :
    alookup m (createPropertyFieldM env st f).2.cache.fieldMappings
      = alookup m st.cache.fieldMappings := by
  unfold createPropertyFieldM
  match hc : env.createField f with
  | .error e => simp
  | .ok nid =>
    simp only []
    split <;> exact cacheSaveFieldMapping_cache_ne env st f nid m h

theorem createMultiM_store_ne (env : Env) (st : SyncState) (f m : String)
    (users : List Record) (h : m ≠ f) :
    alookup m (createMultiselectFieldWithOptionsM env st f users).2.store.mappings
      = alookup m st.store.mappings := by
  unfold createMultiselectFieldWithOptionsM
  match hc : env.createField f with
  | .error e => simp
  | .ok nid =>
    simp only []
    split
    · exact cacheSaveFieldMapping_store_ne env _ f nid m h
    · rw [cacheSaveFieldOptions_store_mappings]
      exact cacheSaveFieldMapping_store_ne env _ f nid m h

theorem createMultiM_cache_ne (env : Env) (st : SyncState) (f m : String)
    (users : List Record) (h : m ≠ f) :
    alookup m (createMultiselectFieldWithOptionsM env st f users).2.cache.fieldMappings
      = alookup m st.cache.fieldMappings := by
  unfold createMultiselectFieldWithOptionsM
  match hc : env.createField f with
  | .error e => simp
  | .ok nid =>
    simp only []
    split
    · exact cacheSaveFieldMapping_cache_ne env _ f nid m h
    · rw [cacheSaveFieldOptions_cache_mappings]
      exact cacheSaveFieldMapping_cache_ne env _ f nid m h

theorem syncFieldStep_ne (env : Env) (users : List Record)
    (acc : List (String × String) × SyncState) (fs : String × GoValue)
    (name : String) (h : fs.1 ≠ name) :
    alookup name (syncFieldStep env users acc fs).2.store.mappings
      = alookup name acc.2.store.mappings ∧
    alookup name (syncFieldStep env users acc fs).2.cache.fieldMappings
      = alookup name acc.2.cache.fieldMappings := by
  have hne : name ≠ fs.1 := fun hh => h hh.symm
  have hgc := cacheGetFieldID_cache_ne env acc.2 fs.1 name hne
  have hsm : ∀ (st : SyncState) (v : String),
      alookup name (cacheSaveFieldMapping env st fs.1 v).2.store.mappings
        = alookup name st.store.mappings :=
    fun st v => cacheSaveFieldMapping_store_ne env st fs.1 v name hne
  have hsc : ∀ (st : SyncState) (v : String),
      alookup name (cacheSaveFieldMapping env st fs.1 v).2.cache.fieldMappings
        = alookup name st.cache.fieldMappings :=
    fun st v => cacheSaveFieldMapping_cache_ne env st fs.1 v name hne
  have hcms : ∀ st : SyncState,
      alookup name
          (createMultiselectFieldWithOptionsM env st fs.1 users).2.store.mappings
        = alookup name st.store.mappings :=
    fun st => createMultiM_store_ne env st fs.1 name users hne
  have hcmc : ∀ st : SyncState,
      alookup name
          (createMultiselectFieldWithOptionsM env st fs.1 users).2.cache.fieldMappings
        = alookup name st.cache.fieldMappings :=
    fun st => createMultiM_cache_ne env st fs.1 name users hne
  have hcps : ∀ st : SyncState,
      alookup name (createPropertyFieldM env st fs.1).2.store.mappings
        = alookup name st.store.mappings :=
    fun st => createPropertyFieldM_store_ne env st fs.1 name hne
  have hcpc : ∀ st : SyncState,
      alookup name (createPropertyFieldM env st fs.1).2.cache.fieldMappings
        = alookup name st.cache.fieldMappings :=
    fun st => createPropertyFieldM_cache_ne env st fs.1 name hne
  constructor <;>
  · unfold syncFieldStep
    by_cases heid : (match (cacheGetFieldID env acc.2 fs.1).1 with
      | Except.ok v => v
      | Except.error _ => "") = ""
    · rw [if_pos heid]
      by_cases hmt : inferFieldType fs.2 = FieldType.multiselect
      · simp only [if_pos hmt]
        cases hc1 : (createMultiselectFieldWithOptionsM env
            (cacheGetFieldID env acc.2 fs.1).2 fs.1 users).1 with
        | ok newID =>
          simp [hcms, hcmc, cacheGetFieldID_store, hgc]
        | error e =>
          cases hs : env.searchField fs.1 (inferFieldType fs.2) with
          | error e2 => simp [hcms, hcmc, cacheGetFieldID_store, hgc]
          | ok found =>
            cases found with
            | none => simp [hcms, hcmc, cacheGetFieldID_store, hgc]
            | some fid =>
              simp [updateMS_store_mappings, updateMS_cache_mappings,
                hsm, hsc, hcms, hcmc, cacheGetFieldID_store, hgc]
      · simp only [if_neg hmt]
        cases hc1 : (createPropertyFieldM env
            (cacheGetFieldID env acc.2 fs.1).2 fs.1).1 with
        | ok newID =>
          simp [hcps, hcpc, cacheGetFieldID_store, hgc]
        | error e =>
          cases hs : env.searchField fs.1 (inferFieldType fs.2) with
          | error e2 => simp [hcps, hcpc, cacheGetFieldID_store, hgc]
          | ok found =>
            cases found with
            | none => simp [hcps, hcpc, cacheGetFieldID_store, hgc]
            | some fid =>
              simp [updateMS_store_mappings, updateMS_cache_mappings,
                hsm, hsc, hcps, hcpc, cacheGetFieldID_store, hgc]
    · rw [if_neg heid]
      by_cases hmt : inferFieldType fs.2 = FieldType.multiselect
      · simp only [if_pos hmt]
        simp [updateMS_store_mappings, updateMS_cache_mappings,
          cacheGetFieldID_store, hgc]
      · simp only [if_neg hmt]
        simp [cacheGetFieldID_store, hgc]

theorem syncFieldStep_self (env : Env) (users : List Record)
    (acc : List (String × String) × SyncState) (fs : String × GoValue)
    (id : String)
    (hread : env.readMappingFails fs.1 = false) (hid : id ≠ "")
    (hstore : alookup fs.1 acc.2.store.mappings = some id)
    (hcache : alookup fs.1 acc.2.cache.fieldMappings = none ∨
      alookup fs.1 acc.2.cache.fieldMappings = some id) :
    alookup fs.1 (syncFieldStep env users acc fs).2.store.mappings = some id ∧
    (alookup fs.1 (syncFieldStep env users acc fs).2.cache.fieldMappings = none ∨
     alookup fs.1 (syncFieldStep env users acc fs).2.cache.fieldMappings = some id) := by
  rcases hcache with hc | hc
  · have hg : cacheGetFieldID env acc.2 fs.1 =
        (.ok id,
         { acc.2 with cache := { acc.2.cache with
             fieldMappings := setKV fs.1 id acc.2.cache.fieldMappings } }) := by
      simp [cacheGetFieldID, hc, hread, hstore]
    unfold syncFieldStep
    simp only [hg]
    rw [if_neg hid]
    by_cases hmt : inferFieldType fs.2 = FieldType.multiselect
    · simp only [if_pos hmt]
      constructor
      · simp [updateMS_store_mappings, hstore]
      · right
        simp [updateMS_cache_mappings, alookup_setKV_self]
    · simp only [if_neg hmt]
      constructor
      · simpa using hstore
      · right
        simp [alookup_setKV_self]
  · have hg : cacheGetFieldID env acc.2 fs.1 = (.ok id, acc.2) := by
      simp [cacheGetFieldID, hc]
    unfold syncFieldStep
    simp only [hg]
    rw [if_neg hid]
    by_cases hmt : inferFieldType fs.2 = FieldType.multiselect
    · simp only [if_pos hmt]
      constructor
      · simp [updateMS_store_mappings, hstore]
      · right
        simp [updateMS_cache_mappings, hc]
    · simp only [if_neg hmt]
      exact ⟨hstore, Or.inr hc⟩

theorem syncFields_fold_inv (env : Env) (users : List Record)
    (name id : String)
    (hread : env.readMappingFails name = false) (hid : id ≠ "") :
    ∀ (l : List (String × GoValue)) (acc : List (String × String) × SyncState),
    alookup name acc.2.store.mappings = some id →
    (alookup name acc.2.cache.fieldMappings = none ∨
     alookup name acc.2.cache.fieldMappings = some id) →
    alookup name (l.foldl (syncFieldStep env users) acc).2.store.mappings
      = some id := by
  intro l
  induction l with
  | nil => intro acc h1 _; simpa using h1
  | cons fs rest ih =>
    intro acc h1 h2
    rw [List.foldl_cons]
    by_cases hf : fs.1 = name
    · subst hf
      obtain ⟨hs, hc⟩ := syncFieldStep_self env users acc fs id hread hid h1 h2
      exact ih _ hs hc
    · obtain ⟨hs, hc⟩ := syncFieldStep_ne env users acc fs name hf
      exact ih _ (by rw [hs]; exact h1) (by rw [hc]; exact h2)

/-- C7 (amended): for every run of `SyncFields` over any batch, starting
from a freshly constructed (empty) cache over any store state, if the
store's field-mapping reads do not fail then a `FieldMapping` entry that
already holds a non-empty remote field ID is never overwritten with a
different remote ID — in particular no new remote field's ID is saved over
it. -/
theorem syncFields_no_overwrite (env : Env) (users : List Record)
    (kv0 : KVState) (name id : String)
    (hread : env.readMappingFails name = false)
    (hmap : alookup name kv0.mappings = some id) (hid : id ≠ "") :
    alookup name (SyncFields env users ⟨[], []⟩ kv0).2.store.mappings
      = some id := by
  unfold SyncFields
  exact syncFields_fold_inv env users name id hread hid (discoverFields users)
    ([], ⟨⟨[], []⟩, kv0, 0⟩) hmap (Or.inl rfl)

/-- An environment whose remote field creation succeeds with the fixed
new ID "Y" and whose store operations are reliable. -/
def overwriteEnv : Env :=
  { reliableEnv with createField := fun _ => .ok "Y" }

theorem syncFields_no_overwrite_witness :
    alookup "dept"
        (SyncFields overwriteEnv [[("dept", GoValue.str "Eng")]]
          ⟨[], []⟩ ⟨[("dept", "X")], [], none⟩).2.store.mappings
      = some "X" :=
  syncFields_no_overwrite overwriteEnv [[("dept", GoValue.str "Eng")]]
    ⟨[("dept", "X")], [], none⟩ "dept" "X" rfl (by decide) (by decide)

/-- Counterexample to C7 as stated (over "any prior cache/store state"):
with a prior cache state holding the stale not-found marker "" for field
"f" while the store's mapping for "f" is the non-empty ID "X", a run of
`SyncFields` creates a new remote field (ID "Y") and saves it over the
existing mapping: afterwards the store maps "f" to "Y", not "X". -/
theorem syncFields_overwrite_cex :
    alookup "f" ([("f", "X")] : List (String × String)) = some "X" ∧
    alookup "f"
        (SyncFields overwriteEnv [[("f", GoValue.str "hello")]]
          ⟨[("f", "")], []⟩ ⟨[("f", "X")], [], none⟩).2.store.mappings
      = some "Y" := by
  constructor
  · decide
  · decide

/-- A JSON-encoded property value as produced by the value builder:
`formatStringValue` yields a JSON string literal, `formatMultiselectValue`
a JSON array of option-ID strings (`json.Marshal` cannot fail on these
inputs, so the encoding is modelled as the JSON term itself). -/
inductive Json where
  | str (s : String)
  | arrStr (ids : List String)
  deriving DecidableEq, Repr

/-- A `model.PropertyValue` as built by `buildPropertyValues`
(server/sync/value_sync.go); the constant `TargetType: "user"` is left
implicit. -/
structure PropValue where
  groupID : String
  targetID : String
  fieldID : String
  value : Json
  deriving DecidableEq, Repr

/-- The string elements of a `[]interface{}` value, in order — the
elements that survive the `item.(string)` type assertion in
`buildPropertyValues`. -/
def strElems (items : List GoElem) : List String :=
  items.filterMap fun it =>
    match it with
    | .str s => some s
    | .other => none

/-- The option-name → option-ID resolution loop of
`formatMultiselectValue` (server/sync/value_sync.go): resolve each name
through the cache, failing on a lookup error or an empty ("not found")
ID. -/
def resolveOptionIDs (env : Env) (st : SyncState) (fieldName : String) :
    List String → Except Unit (List String) × SyncState
  | [] => (.ok [], st)
  | v :: vs =>
    let r := cacheGetOptionID env st fieldName v
    match r.1 with
    | .error _ => (.error (), r.2)
    | .ok oid =>
      if oid = "" then (.error (), r.2)
      else
        let k := resolveOptionIDs env r.2 fieldName vs
        match k.1 with
        | .error _ => (.error (), k.2)
        | .ok ids => (.ok (oid :: ids), k.2)

/-- Embedding of `formatMultiselectValue` (server/sync/value_sync.go):
convert option names to option IDs through the cache and marshal the ID
array. -/
def formatMultiselectValue (env : Env) (st : SyncState) (fieldName : String)
    (values : List String) : Except Unit Json × SyncState :=
  let r := resolveOptionIDs env st fieldName values
  match r.1 with
  | .error _ => (.error (), r.2)
  | .ok ids => (.ok (.arrStr ids), r.2)

/-- Embedding of `buildPropertyValues` (server/sync/value_sync.go, lines
119–190): for each attribute except "email", look the field ID up through
the cache (an error skips the attribute), then format by runtime shape —
`[]interface{}` keeps only string elements and resolves them as
multiselect options, `[]string` resolves directly, a string becomes a JSON
string, and any other shape (nil included) is skipped; a formatting error
skips the attribute, otherwise a PropertyValue is appended. -/
def buildPropertyValues (env : Env) (groupID targetID : String)
    (st : SyncState) (userAttrs : Record) : List PropValue × SyncState :=
  userAttrs.foldl
    (fun (acc : List PropValue × SyncState) p =>
      if p.1 = "email" then acc
      else
        let g := cacheGetFieldID env acc.2 p.1
        match g.1 with
        | .error _ => (acc.1, g.2)
        | .ok fieldID =>
          match p.2 with
          | .arr items =>
            let f := formatMultiselectValue env g.2 p.1 (strElems items)
            match f.1 with
            | .error _ => (acc.1, f.2)
            | .ok j => (acc.1 ++ [⟨groupID, targetID, fieldID, j⟩], f.2)
          | .strArr vs =>
            let f := formatMultiselectValue env g.2 p.1 vs
            match f.1 with
            | .error _ => (acc.1, f.2)
            | .ok j => (acc.1 ++ [⟨groupID, targetID, fieldID, j⟩], f.2)
          | .str s => (acc.1 ++ [⟨groupID, targetID, fieldID, Json.str s⟩], g.2)
          | .null => (acc.1, g.2)
          | .other => (acc.1, g.2))
    ([], st)

/-- C8 (evaluated at the failing input): for a user attribute whose field
mapping is absent everywhere — so `GetFieldID` returns the empty-string
"not found" result without error — `buildPropertyValues` does NOT skip the
attribute: it emits a PropertyValue with an empty field ID.  The claim
(and the specification) say a missing (empty) ID skips the attribute; the
code only checks the error return. -/
theorem buildPropertyValues_missing_id_emitted :
    (buildPropertyValues reliableEnv "g" "u1"
        ⟨⟨[], []⟩, ⟨[], [], none⟩, 0⟩
        [("email", GoValue.str "a@x.com"), ("dept", GoValue.str "Eng")]).1
      = [⟨"g", "u1", "", Json.str "Eng"⟩] := by
  decide

/-- The field ID a cache lookup would yield in a given state: the cached
value, else the store's value, else "". -/
def fieldIDView (st : SyncState) (name : String) : String :=
  match alookup name st.cache.fieldMappings with
  | some v => v
  | none => (alookup name st.store.mappings).getD ""

/-- The option set visible for a field in a given state: the cached set,
else the store's. -/
def optionsView (st : SyncState) (name : String) : List (String × String) :=
  match alookup name st.cache.fieldOptions with
  | some m => m
  | none => (alookup name st.store.options).getD []

/-- The option ID visible for one option name of a field. -/
def optIDView (st : SyncState) (name optName : String) : String :=
  (alookup optName (optionsView st name)).getD ""

theorem cacheGetFieldID_spec (env : Env) (st : SyncState) (name : String)
    (hrm : env.readMappingFails name = false) :
    (cacheGetFieldID env st name).1 = .ok (fieldIDView st name) ∧
    (cacheGetFieldID env st name).2.cache.fieldOptions = st.cache.fieldOptions ∧
    (cacheGetFieldID env st name).2.store = st.store := by
  match hc : alookup name st.cache.fieldMappings with
  | some v => simp [cacheGetFieldID, hc, fieldIDView]
  | none => simp [cacheGetFieldID, hc, hrm, fieldIDView]

theorem cacheGetOptionID_spec (env : Env) (st : SyncState) (f o : String)
    (hro : env.readOptionsFails f = false) :
    (cacheGetOptionID env st f o).1 = .ok (optIDView st f o) ∧
    optionsView (cacheGetOptionID env st f o).2 f = optionsView st f := by
  match hc : alookup f st.cache.fieldOptions with
  | some m =>
    simp [cacheGetOptionID, hc, optIDView, optionsView]
  | none =>
    refine ⟨?_, ?_⟩
    · simp [cacheGetOptionID, hc, hro, optIDView, optionsView]
    · simp [cacheGetOptionID, hc, hro, optionsView, alookup_setKV_self]

theorem resolveOptionIDs_spec (env : Env) (f : String)
    (hro : env.readOptionsFails f = false) :
    ∀ (vs : List String) (st : SyncState),
    (∀ v ∈ vs, optIDView st f v ≠ "") →
    (resolveOptionIDs env st f vs).1 = .ok (vs.map (optIDView st f)) ∧
    optionsView (resolveOptionIDs env st f vs).2 f = optionsView st f := by
  intro vs
  induction vs with
  | nil => intro st _; simp [resolveOptionIDs]
  | cons v rest ih =>
    intro st hres
    obtain ⟨hr1, hr2⟩ := cacheGetOptionID_spec env st f v hro
    have hvne : optIDView st f v ≠ "" := hres v (List.mem_cons_self v rest)
    have hview : ∀ o, optIDView (cacheGetOptionID env st f v).2 f o
        = optIDView st f o := by
      intro o
      rw [optIDView, optIDView, hr2]
    obtain ⟨hk1, hk2⟩ := ih (cacheGetOptionID env st f v).2
      (fun u hu => by rw [hview u]; exact hres u (List.mem_cons_of_mem v hu))
    constructor
    · simp only [resolveOptionIDs, hr1]
      rw [if_neg hvne]
      simp only [hk1]
      rw [show rest.map (optIDView (cacheGetOptionID env st f v).2 f)
          = rest.map (optIDView st f) from List.map_congr_left fun u _ => hview u]
      rfl
    · simp only [resolveOptionIDs, hr1]
      rw [if_neg hvne]
      simp only [hk1]
      rw [hk2, hr2]

/-- C10: for an attribute whose value is a heterogeneous `[]interface{}`
list, the value builder silently drops every non-string element before
resolving option IDs, so the mix does not fail the attribute: provided the
field lookup does not error and every string element resolves to a
non-empty option ID, the emitted value record holds exactly the option IDs
of the string elements, in their original relative order. -/
theorem buildPropertyValues_mixed_list (env : Env)
    (groupID targetID name : String) (items : List GoElem) (st : SyncState)
    (hname : name ≠ "email")
    (hrm : env.readMappingFails name = false)
    (hro : env.readOptionsFails name = false)
    (hres : ∀ s ∈ strElems items, optIDView st name s ≠ "") :
    (buildPropertyValues env groupID targetID st
        [(name, GoValue.arr items)]).1
      = [⟨groupID, targetID, fieldIDView st name,
          Json.arrStr ((strElems items).map (optIDView st name))⟩] := by
  obtain ⟨hg1, hg2, hg3⟩ := cacheGetFieldID_spec env st name hrm
  have hview : ∀ o, optIDView (cacheGetFieldID env st name).2 name o
      = optIDView st name o := by
    intro o
    rw [optIDView, optIDView, optionsView, optionsView, hg2, hg3]
  obtain ⟨hr1, -⟩ := resolveOptionIDs_spec env name hro (strElems items)
    (cacheGetFieldID env st name).2
    (fun s hs => by rw [hview s]; exact hres s hs)
  unfold buildPropertyValues
  rw [List.foldl_cons, List.foldl_nil]
  rw [if_neg hname]
  simp only [hg1]
  simp only [formatMultiselectValue, hr1]
  rw [show (strElems items).map (optIDView (cacheGetFieldID env st name).2 name)
      = (strElems items).map (optIDView st name) from
    List.map_congr_left fun u _ => hview u]
  rfl

/-- A state instantiating C10: the store maps field "tags" and its options
"A" and "B"; the cache is fresh. -/
def mixedSt : SyncState :=
  ⟨⟨[], []⟩, ⟨[("tags", "ft")], [("tags", [("A", "ida"), ("B", "idb")])], none⟩, 0⟩

theorem buildPropertyValues_mixed_list_witness :
    (buildPropertyValues reliableEnv "g" "u1" mixedSt
        [("tags", GoValue.arr [.str "A", .other, .str "B"])]).1
      = [⟨"g", "u1", fieldIDView mixedSt "tags",
          Json.arrStr ((strElems [.str "A", .other, .str "B"]).map
            (optIDView mixedSt "tags"))⟩] :=
  buildPropertyValues_mixed_list reliableEnv "g" "u1" "tags"
    [.str "A", .other, .str "B"] mixedSt (by decide) rfl rfl (by decide)

/-- Embedding of `Client.SaveLastSyncTime`
(server/store/kvstore/sync.go): store the formatted timestamp under the
`last_sync_timestamp` key.  No code path of `runSync` calls it. -/
def saveLastSyncTime (kv : KVState) (t : String) : KVState :=
  { kv with lastSync := some t }

/-- The synchronization subsystems a pass can run. -/
inductive SyncAction where
  | schemaSync
  | valueSync
  deriving DecidableEq, Repr

/-- Embedding of `Plugin.runSync` (src/unnamed/part_002, lines 69–115):
a fetch error returns immediately; an empty batch returns immediately; a
group-registration error returns; otherwise `SyncFields` runs over a fresh
cache, then `SyncUsers` (which reads but never writes the KV store, so the
resulting store is the schema synchronizer's).  The returned action list
records which subsystems ran.  In the source, `SyncFields` and `SyncUsers`
both return a nil error unconditionally, so `runSync`'s aborts after them
are dead branches, and no path calls `SaveLastSyncTime`. -/
def runSync (env : Env) (kv0 : KVState)
    (fetchResult : Except Unit (List Record))
    (groupResult : Except Unit String) : List SyncAction × KVState :=
  match fetchResult with
  | .error _ => ([], kv0)
  | .ok users =>
    if users.length = 0 then ([], kv0)
    else
      match groupResult with
      | .error _ => ([], kv0)
      | .ok _ =>
        let sf := SyncFields env users ⟨[], []⟩ kv0
        ([.schemaSync, .valueSync], sf.2.store)

/-- Counterexample to C9 as stated: for a pass whose fetch returns zero
records, `runSync` returns before any schema or value work — consistent
with the claim — but it also leaves the KV store untouched, so the
last-sync watermark is NOT advanced, contradicting the claim's "the sync
watermark is still advanced" (no code path of `runSync` ever calls
`SaveLastSyncTime`). -/
theorem runSync_empty_watermark_cex :
    runSync reliableEnv ⟨[], [], some "2025-01-01T00:00:00Z"⟩ (.ok []) (.ok "g")
      = ([], ⟨[], [], some "2025-01-01T00:00:00Z"⟩) ∧
    (runSync reliableEnv ⟨[], [], some "2025-01-01T00:00:00Z"⟩
        (.ok []) (.ok "g")).2.lastSync = some "2025-01-01T00:00:00Z" := by
  exact ⟨rfl, rfl⟩

/-- C9 (amended): for every sync pass in which fetching returns zero
records, the pass performs no schema synchronization and no value
synchronization, and the KV store — the sync watermark included — is left
unchanged: the watermark is not advanced. -/
theorem runSync_empty_noop (env : Env) (kv0 : KVState)
    (g : Except Unit String) :
    runSync env kv0 (.ok []) g = ([], kv0) := rfl

end AttrSync
